import Mathlib

/-!
Shallow embedding of `minillm/model.py` (TinyLLM): a character-level language
model with a manual forward pass, manual backpropagation, full-batch gradient
descent and greedy sampling.

Modelling conventions:
* Python floats are embedded as exact rationals (`ℚ`): the claims are stated
  over a real-number reading of the arithmetic.
* `math.exp` (and `math.log`, used only by `loss`) are embedded as explicit
  function parameters `ex` (resp. `lg`); the only fact the claims need about
  `exp` is positivity, which appears as a hypothesis where required.
* Python dict lookups that can raise `KeyError` (`self.stoi[c]`, `self.itos[i]`)
  are embedded as `Option`-valued lookups; public operations return `Except Err`
  with `Err.keyError` for a failed lookup, mirroring the raised exception.
* In-place mutation of list tensors is embedded by explicit state passing:
  loops that fill a fresh `zeros` tensor once per cell become comprehensions
  over the same index ranges, and the read-modify-write embedding scatter
  (`grad_E[v][d] += ...`) becomes the explicit fold `scatterE`.
* `random.uniform` draws for parameter initialisation are abstracted as a
  function of the cell position (`rnd : Nat → Nat → ℚ`); no claim depends on
  the drawn values.
* Python list indexing `xs[i]` is embedded as `getD` with a default; every
  claim supplies the bounds under which the source's indexing is in range.
-/

namespace MiniLLM

abbrev Vec := List ℚ
abbrev Mat := List (List ℚ)

/-- Read a vector entry; Python `vec[i]` (in range in every reachable use). -/
def vget (v : Vec) (i : Nat) : ℚ := v.getD i 0

/-- Read a matrix entry; Python `mat[i][j]`. -/
def mget (M : Mat) (i j : Nat) : ℚ := vget (M.getD i []) j

/-- `zeros(rows, cols)` from model.py. -/
def zeros (rows cols : Nat) : Mat := List.replicate rows (List.replicate cols (0 : ℚ))

/-- `random_matrix(rows, cols, scale)`: entries are draws from the seeded RNG,
abstracted here as a function `rnd` of the cell position. -/
def random_matrix (rnd : Nat → Nat → ℚ) (rows cols : Nat) : Mat :=
  (List.range rows).map (fun i => (List.range cols).map (fun j => rnd i j))

/-- `matvec(mat, vec)`: row-wise dot products over `zip(row, vec)`. -/
def matvec (mat : Mat) (vec : Vec) : Vec :=
  mat.map (fun row => (List.zipWith (fun a b => a * b) row vec).sum)

/-- `add_inplace(target, src)`: elementwise sum (equal lengths in every use). -/
def add_vecs (target src : Vec) : Vec := List.zipWith (fun a b => a + b) target src

/-- `relu(vec)`. -/
def relu (vec : Vec) : Vec := vec.map (fun v => max 0 v)

/-- `softmax(vec)` with `math.exp` abstracted as `ex`: subtract the maximum
entry, exponentiate, normalise.  Python's `max` faults on an empty list; the
empty case returns `[]` and is unreachable from a constructed model. -/
def softmax (ex : ℚ → ℚ) (vec : Vec) : Vec :=
  match vec.max? with
  | none => []
  | some max_v =>
    let exps := vec.map (fun v => ex (v - max_v))
    let total := exps.sum
    exps.map (fun e => e / total)

/-- The `Dataset` dataclass. -/
structure Dataset where
  inputs : List (List Nat)
  targets : List Nat
deriving DecidableEq

/-- Errors raised by the model core: `ValueError` at construction
(InvalidConfiguration), `ValueError` in `predict_next` (InvalidInput), and
`KeyError` from a failed `stoi`/`itos` dictionary lookup. -/
inductive Err where
  | invalidConfiguration
  | invalidInput
  | keyError
deriving DecidableEq

/-- The TinyLLM model state: hyperparameters, vocabulary, dataset and the five
parameter tensors. -/
structure TinyLLM where
  context : Nat
  embed_dim : Nat
  hidden_dim : Nat
  learning_rate : ℚ
  vocab : List Char
  dataset : Dataset
  E : Mat
  W1 : Mat
  b1 : Vec
  W2 : Mat
  b2 : Vec
deriving DecidableEq

/-- `self.stoi[c]`: dictionary lookup, `none` models `KeyError`.  Since `vocab`
is duplicate-free, `indexOf` is the enumeration index. -/
def stoi (vocab : List Char) (c : Char) : Option Nat :=
  if c ∈ vocab then some (vocab.indexOf c) else none

/-- `self.itos[i]`: inverse dictionary lookup. -/
def itos (vocab : List Char) (i : Nat) : Option Char := vocab[i]?

/-- `self._encode(chars)`: `[self.stoi[c] for c in chars]`, propagating
`KeyError` as `none`. -/
def encode (vocab : List Char) : List Char → Option (List Nat)
  | [] => some []
  | c :: cs =>
    match stoi vocab c, encode vocab cs with
    | some i, some is => some (i :: is)
    | _, _ => none

/-- Insertion into a sorted list of characters (helper for `sortChars`). -/
def insertSorted (c : Char) : List Char → List Char
  | [] => [c]
  | d :: rest => if c ≤ d then c :: d :: rest else d :: insertSorted c rest

/-- Insertion sort on characters; models Python's `sorted`. -/
def sortChars (l : List Char) : List Char := l.foldr insertSorted []

/-- `self._build_vocab(text)`: `sorted(set(text))`. -/
def build_vocab (text : List Char) : List Char := sortChars text.dedup

/-- Option-propagating map over a list of indices (helper embedding the
dataset-building loop, which can only fault through `stoi`). -/
def optList {β : Type} (f : Nat → Option β) : List Nat → Option (List β)
  | [] => some []
  | i :: is =>
    match f i, optList f is with
    | some b, some bs => some (b :: bs)
    | _, _ => none

/-- `self._build_dataset(text)`: for `i in range(len(text) - context)` collect
`encode(text[i : i+context])` and `stoi[text[i+context]]`. -/
def build_dataset (vocab : List Char) (context : Nat) (text : List Char) : Option Dataset :=
  match optList (fun i => encode vocab ((text.drop i).take context)) (List.range (text.length - context)),
        optList (fun i => stoi vocab (text.getD (i + context) ' ')) (List.range (text.length - context)) with
  | some inputs, some targets => some ⟨inputs, targets⟩
  | _, _ => none

/-- `TinyLLM.__init__`: fails (ValueError, InvalidConfiguration) when
`len(text) <= context`; otherwise builds the vocabulary and dataset and
initialises the five parameter tensors. -/
def construct (text : List Char) (context embed_dim hidden_dim : Nat) (learning_rate : ℚ)
    (rndE rndW1 rndW2 : Nat → Nat → ℚ) : Except Err TinyLLM :=
  if text.length ≤ context then .error .invalidConfiguration
  else
    match build_dataset (build_vocab text) context text with
    | none => .error .keyError
    | some ds =>
      .ok { context := context, embed_dim := embed_dim, hidden_dim := hidden_dim,
            learning_rate := learning_rate, vocab := build_vocab text, dataset := ds,
            E := random_matrix rndE (build_vocab text).length embed_dim,
            W1 := random_matrix rndW1 hidden_dim (context * embed_dim),
            b1 := List.replicate hidden_dim (0 : ℚ),
            W2 := random_matrix rndW2 (build_vocab text).length hidden_dim,
            b2 := List.replicate (build_vocab text).length (0 : ℚ) }

/-- The forward cache of `TinyLLM._forward`. -/
structure Cache where
  x_indices : List Nat
  x_flat : Vec
  hidden : Vec
  hidden_raw : Vec
  probs : Vec

/-- `TinyLLM._forward(x_idx)`: embedding lookup and flatten, dense + ReLU,
dense + softmax; returns the probabilities and the cache. -/
def forward (ex : ℚ → ℚ) (m : TinyLLM) (x_idx : List Nat) : Vec × Cache :=
  let embed_vectors := x_idx.map (fun idx => m.E.getD idx [])
  let x_flat : Vec := embed_vectors.flatten
  let hidden_raw := add_vecs (matvec m.W1 x_flat) m.b1
  let hidden := relu hidden_raw
  let logits := add_vecs (matvec m.W2 hidden) m.b2
  let probs := softmax ex logits
  (probs, ⟨x_idx, x_flat, hidden, hidden_raw, probs⟩)

/-- `grad_logits`: copy of `probs` with 1 subtracted at the target index. -/
def grad_logits (cache : Cache) (target_idx : Nat) : Vec :=
  cache.probs.set target_idx (vget cache.probs target_idx - 1)

/-- `grad_W2[i][j] = grad_logits[i] * hidden[j]` over the source's index ranges. -/
def grad_W2 (m : TinyLLM) (cache : Cache) (target_idx : Nat) : Mat :=
  (List.range m.vocab.length).map (fun i =>
    (List.range m.hidden_dim).map (fun j =>
      vget (grad_logits cache target_idx) i * vget cache.hidden j))

/-- `grad_hidden[j] = Σ_i W2[i][j] * grad_logits[i]` (before the ReLU mask). -/
def grad_hidden_pre (m : TinyLLM) (cache : Cache) (target_idx : Nat) : Vec :=
  (List.range m.hidden_dim).map (fun j =>
    ((List.range m.vocab.length).map (fun i =>
      mget m.W2 i j * vget (grad_logits cache target_idx) i)).sum)

/-- ReLU backward: zero the hidden gradient wherever `hidden_raw[j] <= 0`
(`hidden_raw` has length `hidden_dim` in every reachable cache). -/
def grad_hidden (m : TinyLLM) (cache : Cache) (target_idx : Nat) : Vec :=
  (List.range m.hidden_dim).map (fun j =>
    if vget cache.hidden_raw j ≤ 0 then 0 else vget (grad_hidden_pre m cache target_idx) j)

/-- `grad_W1[j][k] = grad_hidden[j] * x_flat[k]` over the source's index ranges. -/
def grad_W1 (m : TinyLLM) (cache : Cache) (target_idx : Nat) : Mat :=
  (List.range m.hidden_dim).map (fun j =>
    (List.range (m.context * m.embed_dim)).map (fun k =>
      vget (grad_hidden m cache target_idx) j * vget cache.x_flat k))

/-- `grad_x_flat[k] = Σ_j W1[j][k] * grad_hidden[j]`. -/
def grad_x_flat (m : TinyLLM) (cache : Cache) (target_idx : Nat) : Vec :=
  (List.range (m.context * m.embed_dim)).map (fun k =>
    ((List.range m.hidden_dim).map (fun j =>
      mget m.W1 j k * vget (grad_hidden m cache target_idx) j)).sum)

/-- The embedding-gradient scatter loop: for each `(pos, vocab_idx)` of
`enumerate(x_indices)`, `grad_E[vocab_idx][d] += grad_x_flat[pos*embed_dim+d]`
for `d in range(embed_dim)`; the matrix is threaded as explicit state. -/
def scatterE (embed_dim : Nat) (gxf : Vec) : List (Nat × Nat) → Mat → Mat
  | [], gE => gE
  | (pos, vocab_idx) :: rest, gE =>
    scatterE embed_dim gxf rest
      (gE.set vocab_idx
        ((List.range embed_dim).map (fun d =>
          vget (gE.getD vocab_idx []) d + vget gxf (pos * embed_dim + d))))

/-- `grad_E`: scatter-accumulation of `grad_x_flat` into `zeros(vocab, embed_dim)`. -/
def grad_E (m : TinyLLM) (cache : Cache) (target_idx : Nat) : Mat :=
  scatterE m.embed_dim (grad_x_flat m cache target_idx) cache.x_indices.enum
    (zeros m.vocab.length m.embed_dim)

/-- The five gradient tensors returned by `TinyLLM._backward`. -/
structure Grads where
  gE : Mat
  gW1 : Mat
  gb1 : Vec
  gW2 : Mat
  gb2 : Vec

/-- `TinyLLM._backward(cache, target_idx)`. -/
def backward (m : TinyLLM) (cache : Cache) (target_idx : Nat) : Grads :=
  ⟨grad_E m cache target_idx, grad_W1 m cache target_idx, grad_hidden m cache target_idx,
   grad_W2 m cache target_idx, grad_logits cache target_idx⟩

/-- Python's `max(range(len(probs)), key=lambda i: probs[i])` scans indices in
order and keeps the first maximum; `best` is updated only on a strict increase. -/
def argmaxFrom (v : Vec) : Nat → List Nat → Nat
  | best, [] => best
  | best, i :: rest => argmaxFrom v (if vget v best < vget v i then i else best) rest

/-- First index attaining the maximum of `v` (0 for the empty list, which
Python's `max` would reject; unreachable from a constructed model). -/
def argmaxIdx (v : Vec) : Nat := argmaxFrom v 0 (List.range' 1 (v.length - 1))

/-- `TinyLLM.predict_next(context_text)`: ValueError (InvalidInput) unless the
context has exactly `context` characters; then encode, forward, and return the
argmax character with the probability vector. -/
def predict_next (ex : ℚ → ℚ) (m : TinyLLM) (context_text : List Char) :
    Except Err (Char × Vec) :=
  if context_text.length ≠ m.context then .error .invalidInput
  else
    match encode m.vocab context_text with
    | none => .error .keyError
    | some idxs =>
      let probs := (forward ex m idxs).1
      match itos m.vocab (argmaxIdx probs) with
      | none => .error .keyError
      | some c => .ok (c, probs)

/-- The last `n` characters of `l`; Python `l[-n:]`. -/
def lastN (n : Nat) (l : List Char) : List Char := l.drop (l.length - n)

/-- `seed.rjust(context)`: left-pad with spaces to width `context`. -/
def padSeed (context : Nat) (seed : List Char) : List Char :=
  List.replicate (context - seed.length) ' ' ++ seed

/-- The initial generation window of `TinyLLM.sample`: pad a short seed, then
keep only the final `context` characters. -/
def seedInit (m : TinyLLM) (seed : List Char) : List Char :=
  lastN m.context (if seed.length < m.context then padSeed m.context seed else seed)

/-- The generation loop of `TinyLLM.sample`: up to `max_new` rounds of
predicting from the last `context` generated characters, appending, and
stopping early on a newline. -/
def sampleLoop (ex : ℚ → ℚ) (m : TinyLLM) : Nat → List Char → Except Err (List Char)
  | 0, generated => .ok generated
  | Nat.succ fuel, generated =>
    match predict_next ex m (lastN m.context generated) with
    | .error e => .error e
    | .ok (next_ch, _) =>
      if next_ch = '\n' then .ok (generated ++ [next_ch])
      else sampleLoop ex m fuel (generated ++ [next_ch])

/-- `TinyLLM.sample(seed, max_new)`. -/
def sample (ex : ℚ → ℚ) (m : TinyLLM) (seed : List Char) (max_new : Nat) :
    Except Err (List Char) :=
  sampleLoop ex m max_new (seedInit m seed)

/-- The `1e-12` epsilon guarding `log` in loss computation. -/
def epsLoss : ℚ := 1 / 1000000000000

/-- Dataset pairs in order: `zip(self.dataset.inputs, self.dataset.targets)`. -/
def samples (m : TinyLLM) : List (List Nat × Nat) := m.dataset.inputs.zip m.dataset.targets

/-- `TinyLLM.loss()`: mean of `-log(probs[target] + 1e-12)` over the dataset,
with `math.log` abstracted as `lg`. -/
def loss (ex lg : ℚ → ℚ) (m : TinyLLM) : ℚ :=
  ((samples m).map (fun s =>
    -(lg (vget (forward ex m s.1).1 s.2 + epsLoss)))).sum / (m.dataset.inputs.length : ℚ)

/-- Gradient accumulators of one training epoch, all zero. -/
def zeroGrads (m : TinyLLM) : Grads :=
  ⟨zeros m.vocab.length m.embed_dim,
   zeros m.hidden_dim (m.context * m.embed_dim),
   List.replicate m.hidden_dim (0 : ℚ),
   zeros m.vocab.length m.hidden_dim,
   List.replicate m.vocab.length (0 : ℚ)⟩

/-- Elementwise matrix sum (the `grad_*_total[i][j] += g[i][j]` loops; equal
shapes in every use). -/
def addMat (a b : Mat) : Mat :=
  List.zipWith (fun ra rb => List.zipWith (fun x y => x + y) ra rb) a b

/-- Accumulate one sample's gradients into the running totals. -/
def addGrads (a b : Grads) : Grads :=
  ⟨addMat a.gE b.gE, addMat a.gW1 b.gW1, add_vecs a.gb1 b.gb1,
   addMat a.gW2 b.gW2, add_vecs a.gb2 b.gb2⟩

/-- The `grad[i][j] *= inv_n` averaging loops. -/
def scaleMat (c : ℚ) (M : Mat) : Mat := M.map (fun row => row.map (fun x => x * c))

/-- The `grad[i] *= inv_n` averaging loops for bias vectors. -/
def scaleVec (c : ℚ) (v : Vec) : Vec := v.map (fun x => x * c)

/-- Average all five accumulated gradient tensors by `inv_n`. -/
def scaleGrads (c : ℚ) (g : Grads) : Grads :=
  ⟨scaleMat c g.gE, scaleMat c g.gW1, scaleVec c g.gb1, scaleMat c g.gW2, scaleVec c g.gb2⟩

/-- The `p -= lr * g` update loops for a weight matrix. -/
def subMat (lr : ℚ) (p g : Mat) : Mat :=
  List.zipWith (fun rp rg => List.zipWith (fun x y => x - lr * y) rp rg) p g

/-- The `p -= lr * g` update loops for a bias vector. -/
def subVec (lr : ℚ) (p g : Vec) : Vec :=
  List.zipWith (fun x y => x - lr * y) p g

/-- `TinyLLM._apply_grads`: move every parameter element by
`-learning_rate * gradient_element`. -/
def apply_grads (m : TinyLLM) (g : Grads) : TinyLLM :=
  { m with E := subMat m.learning_rate m.E g.gE,
           W1 := subMat m.learning_rate m.W1 g.gW1,
           b1 := subVec m.learning_rate m.b1 g.gb1,
           W2 := subMat m.learning_rate m.W2 g.gW2,
           b2 := subVec m.learning_rate m.b2 g.gb2 }

/-- One epoch of `TinyLLM.train`: accumulate per-sample gradients over the full
dataset at the current parameters, average by `inv_n = 1/num_samples`, and apply
one gradient-descent update.  (The per-sample loss total only feeds the
periodic progress printout and is omitted.) -/
def epochStep (ex : ℚ → ℚ) (m : TinyLLM) : TinyLLM :=
  let inv_n : ℚ := 1 / (m.dataset.inputs.length : ℚ)
  let total := (samples m).foldl
    (fun acc s => addGrads acc (backward m (forward ex m s.1).2 s.2)) (zeroGrads m)
  apply_grads m (scaleGrads inv_n total)

/-- `TinyLLM.train(epochs)`: `epochs` sequential epochs, no early stopping. -/
def train (ex : ℚ → ℚ) : TinyLLM → Nat → TinyLLM
  | m, 0 => m
  | m, Nat.succ k => train ex (epochStep ex m) k

/-- Matrix shape predicate: `r` rows, each of length `c`. -/
abbrev MShape (M : Mat) (r c : Nat) : Prop :=
  M.length = r ∧ ∀ row ∈ M, row.length = c

/-- Well-formedness of a model state: the shape invariants established by
`TinyLLM.__init__` (§3 of the spec): nonempty vocabulary, parameter tensors of
the documented shapes, and dataset pairs of valid window length and indices. -/
abbrev WF (m : TinyLLM) : Prop :=
  0 < m.vocab.length ∧
  MShape m.E m.vocab.length m.embed_dim ∧
  MShape m.W1 m.hidden_dim (m.context * m.embed_dim) ∧
  m.b1.length = m.hidden_dim ∧
  MShape m.W2 m.vocab.length m.hidden_dim ∧
  m.b2.length = m.vocab.length ∧
  (∀ x ∈ m.dataset.inputs, x.length = m.context ∧ ∀ i ∈ x, i < m.vocab.length) ∧
  (∀ t ∈ m.dataset.targets, t < m.vocab.length)

/-- Concrete stand-in for `math.exp` in witnesses (any positive function). -/
def exOne : ℚ → ℚ := fun _ => 1

/-- Concrete stand-in for the RNG draws in witnesses. -/
def rngZero : Nat → Nat → ℚ := fun _ _ => 0

/-- A tiny hand-written well-formed model state used by witnesses. -/
def handModel : TinyLLM :=
  { context := 1, embed_dim := 1, hidden_dim := 1, learning_rate := 1,
    vocab := ['a'], dataset := ⟨[[0]], [0]⟩,
    E := [[0]], W1 := [[0]], b1 := [0], W2 := [[0]], b2 := [0] }

/-- A concrete forward cache used by witnesses. -/
def handCache : Cache := ⟨[0], [0], [0], [0], [1]⟩

/-- The model constructed from text `"abcab"` with `context = 2`; used as the
concrete input of the counterexamples. -/
def mCE : TinyLLM :=
  match construct ['a','b','c','a','b'] 2 1 1 1 rngZero rngZero rngZero with
  | .ok m => m
  | .error _ => handModel

/-! ## Basic access lemmas -/

theorem vget_of_lt (v : Vec) (i : Nat) (h : i < v.length) : vget v i = v[i] :=
  List.getD_eq_getElem v 0 h

theorem vget_of_ge (v : Vec) (i : Nat) (h : v.length ≤ i) : vget v i = 0 :=
  List.getD_eq_default v 0 h

theorem mget_of_lt (M : Mat) (i j : Nat) (h : i < M.length) : mget M i j = vget M[i] j := by
  unfold mget
  rw [List.getD_eq_getElem M [] h]

theorem vget_map_range (f : Nat → ℚ) (n i : Nat) (h : i < n) :
    vget ((List.range n).map f) i = f i := by
  have h1 : i < ((List.range n).map f).length := by simpa using h
  rw [vget_of_lt _ _ h1, List.getElem_map, List.getElem_range]

theorem vget_set_self (v : Vec) (t : Nat) (a : ℚ) (h : t < v.length) :
    vget (v.set t a) t = a := by
  have h1 : t < (v.set t a).length := by simpa using h
  rw [vget_of_lt _ _ h1, List.getElem_set, if_pos rfl]

theorem vget_set_ne (v : Vec) (t i : Nat) (a : ℚ) (h : t ≠ i) :
    vget (v.set t a) i = vget v i := by
  by_cases hi : i < v.length
  · have h1 : i < (v.set t a).length := by simpa using hi
    rw [vget_of_lt _ _ h1, List.getElem_set, if_neg h, vget_of_lt _ _ hi]
  · have hge := not_lt.mp hi
    rw [vget_of_ge _ _ (by simpa using hge), vget_of_ge _ _ hge]

theorem mget_zeros (r c i j : Nat) : mget (zeros r c) i j = 0 := by
  unfold mget zeros
  by_cases hi : i < r
  · rw [List.getD_eq_getElem _ _ (by simpa using hi), List.getElem_replicate]
    by_cases hj : j < c
    · rw [vget_of_lt _ _ (by simpa using hj), List.getElem_replicate]
    · exact vget_of_ge _ _ (by simpa using not_lt.mp hj)
  · rw [List.getD_eq_default _ _ (by simpa using not_lt.mp hi)]
    simp [vget]

theorem MShape_zeros (r c : Nat) : MShape (zeros r c) r c := by
  constructor
  · simp [zeros]
  · intro row hr
    rw [List.eq_of_mem_replicate hr]
    simp

/-! ## Vocabulary and encoding lemmas -/

theorem mem_insertSorted {a c : Char} {l : List Char} :
    a ∈ insertSorted c l ↔ a = c ∨ a ∈ l := by
  induction l with
  | nil => simp [insertSorted]
  | cons d rest ih =>
    unfold insertSorted
    by_cases h : c ≤ d
    · simp [h]
    · simp only [h, if_false, List.mem_cons, ih]
      tauto

theorem mem_sortChars {a : Char} {l : List Char} : a ∈ sortChars l ↔ a ∈ l := by
  induction l with
  | nil => simp [sortChars]
  | cons c rest ih =>
    show a ∈ insertSorted c (sortChars rest) ↔ _
    rw [mem_insertSorted, ih]
    simp

theorem mem_build_vocab {c : Char} {text : List Char} :
    c ∈ build_vocab text ↔ c ∈ text := by
  unfold build_vocab
  rw [mem_sortChars, List.mem_dedup]

theorem stoi_of_mem {vocab : List Char} {c : Char} (h : c ∈ vocab) :
    stoi vocab c = some (vocab.indexOf c) := if_pos h

theorem stoi_of_not_mem {vocab : List Char} {c : Char} (h : c ∉ vocab) :
    stoi vocab c = none := if_neg h

theorem encode_eq_map {vocab : List Char} {cs : List Char} (h : ∀ c ∈ cs, c ∈ vocab) :
    encode vocab cs = some (cs.map (fun c => vocab.indexOf c)) := by
  induction cs with
  | nil => rfl
  | cons c rest ih =>
    have hc : c ∈ vocab := h c (List.mem_cons_self c rest)
    have hr := ih (fun d hd => h d (List.mem_cons_of_mem c hd))
    simp [encode, stoi_of_mem hc, hr]

theorem encode_eq_none {vocab : List Char} :
    ∀ {cs : List Char}, (∃ c ∈ cs, c ∉ vocab) → encode vocab cs = none := by
  intro cs
  induction cs with
  | nil => rintro ⟨c, hc, -⟩; simp at hc
  | cons c rest ih =>
    rintro ⟨d, hd, hnd⟩
    rcases List.mem_cons.mp hd with rfl | hdr
    · cases henc : encode vocab rest <;> simp [encode, stoi_of_not_mem hnd, henc]
    · cases hst : stoi vocab c <;> simp [encode, hst, ih ⟨d, hdr, hnd⟩]

theorem optList_eq_map {β : Type} (f : Nat → Option β) (g : Nat → β) :
    ∀ (l : List Nat), (∀ i ∈ l, f i = some (g i)) → optList f l = some (l.map g)
  | [], _ => rfl
  | i :: is, h => by
    have hi : f i = some (g i) := h i (by simp)
    have hr := optList_eq_map f g is (fun j hj => h j (by simp [hj]))
    simp [optList, hi, hr]

theorem build_dataset_eq (vocab : List Char) (context : Nat) (text : List Char)
    (h : ∀ c ∈ text, c ∈ vocab) :
    build_dataset vocab context text =
      some ⟨(List.range (text.length - context)).map
              (fun i => ((text.drop i).take context).map (fun c => vocab.indexOf c)),
            (List.range (text.length - context)).map
              (fun i => vocab.indexOf (text.getD (i + context) ' '))⟩ := by
  have h1 : optList (fun i => encode vocab ((text.drop i).take context))
      (List.range (text.length - context))
      = some ((List.range (text.length - context)).map
          (fun i => ((text.drop i).take context).map (fun c => vocab.indexOf c))) := by
    apply optList_eq_map
    intro i _
    apply encode_eq_map
    intro c hc
    exact h c (List.mem_of_mem_drop (List.mem_of_mem_take hc))
  have h2 : optList (fun i => stoi vocab (text.getD (i + context) ' '))
      (List.range (text.length - context))
      = some ((List.range (text.length - context)).map
          (fun i => vocab.indexOf (text.getD (i + context) ' '))) := by
    apply optList_eq_map
    intro i hi
    rw [List.mem_range] at hi
    have hlt : i + context < text.length := by omega
    rw [List.getD_eq_getElem _ _ hlt]
    exact stoi_of_mem (h _ (List.getElem_mem hlt))
  unfold build_dataset
  rw [h1, h2]

/-! ## Construction: claims C6, C8, C10 -/

theorem construct_ok_elim {text : List Char} {context embed_dim hidden_dim : Nat}
    {learning_rate : ℚ} {rndE rndW1 rndW2 : Nat → Nat → ℚ} {m : TinyLLM}
    (hok : construct text context embed_dim hidden_dim learning_rate rndE rndW1 rndW2 = .ok m) :
    context < text.length ∧
    m = { context := context, embed_dim := embed_dim, hidden_dim := hidden_dim,
          learning_rate := learning_rate, vocab := build_vocab text,
          dataset := ⟨(List.range (text.length - context)).map
              (fun i => ((text.drop i).take context).map
                (fun c => (build_vocab text).indexOf c)),
            (List.range (text.length - context)).map
              (fun i => (build_vocab text).indexOf (text.getD (i + context) ' '))⟩,
          E := random_matrix rndE (build_vocab text).length embed_dim,
          W1 := random_matrix rndW1 hidden_dim (context * embed_dim),
          b1 := List.replicate hidden_dim (0 : ℚ),
          W2 := random_matrix rndW2 (build_vocab text).length hidden_dim,
          b2 := List.replicate (build_vocab text).length (0 : ℚ) } := by
  by_cases hle : text.length ≤ context
  · unfold construct at hok
    rw [if_pos hle] at hok
    exact absurd hok (by simp)
  · constructor
    · omega
    · unfold construct at hok
      rw [if_neg hle, build_dataset_eq _ _ _ (fun c hc => mem_build_vocab.mpr hc)] at hok
      simpa using hok.symm

/-- Claim C6: `construct` fails with InvalidConfiguration exactly when
`len(text) <= context`; for `len(text) > context` construction succeeds and
returns a model. -/
theorem construct_config_error_iff (text : List Char) (context embed_dim hidden_dim : Nat)
    (learning_rate : ℚ) (rndE rndW1 rndW2 : Nat → Nat → ℚ)
    (hc : 0 < context) (he : 0 < embed_dim) (hh : 0 < hidden_dim) (hl : 0 < learning_rate) :
    (text.length ≤ context →
      construct text context embed_dim hidden_dim learning_rate rndE rndW1 rndW2
        = .error .invalidConfiguration) ∧
    (context < text.length →
      ∃ m, construct text context embed_dim hidden_dim learning_rate rndE rndW1 rndW2
        = .ok m) := by
  constructor
  · intro h
    unfold construct
    rw [if_pos h]
  · intro h
    unfold construct
    rw [if_neg (not_le.mpr h), build_dataset_eq _ _ _ (fun c hc => mem_build_vocab.mpr hc)]
    exact ⟨_, rfl⟩

/-- Witness for C6 at the concrete boundary text `"ab"`, `context = 2`. -/
theorem construct_config_error_iff_witness :
    (0 < 2 ∧ 0 < 1 ∧ (0:ℚ) < 1) ∧
    (((['a','b'] : List Char).length ≤ 2 →
      construct ['a','b'] 2 1 1 1 rngZero rngZero rngZero = .error .invalidConfiguration) ∧
     (2 < (['a','b'] : List Char).length →
      ∃ m, construct ['a','b'] 2 1 1 1 rngZero rngZero rngZero = .ok m)) :=
  ⟨⟨by decide, by decide, one_pos⟩,
   construct_config_error_iff ['a','b'] 2 1 1 1 rngZero rngZero rngZero
     (by decide) (by decide) (by decide) one_pos⟩

/-- Claim C8: the dataset built at construction has exactly
`len(text) - context` pairs in text order; pair `i` encodes the window
`text[i : i+context]` (exactly `context` indices) and targets
`text[i+context]`. -/
theorem dataset_windows (text : List Char) (context embed_dim hidden_dim : Nat)
    (learning_rate : ℚ) (rndE rndW1 rndW2 : Nat → Nat → ℚ) (m : TinyLLM)
    (hok : construct text context embed_dim hidden_dim learning_rate rndE rndW1 rndW2 = .ok m) :
    m.dataset.inputs.length = text.length - context ∧
    m.dataset.targets.length = text.length - context ∧
    ∀ i, i < text.length - context →
      encode m.vocab ((text.drop i).take context) = some (m.dataset.inputs.getD i []) ∧
      (m.dataset.inputs.getD i []).length = context ∧
      stoi m.vocab (text.getD (i + context) ' ') = some (m.dataset.targets.getD i 0) := by
  obtain ⟨hlt, rfl⟩ := construct_ok_elim hok
  refine ⟨by simp, by simp, ?_⟩
  intro i hi
  have hin : (((List.range (text.length - context)).map
      (fun i => ((text.drop i).take context).map (fun c => (build_vocab text).indexOf c))).getD i [])
      = ((text.drop i).take context).map (fun c => (build_vocab text).indexOf c) := by
    rw [List.getD_eq_getElem _ _ (by simpa using hi), List.getElem_map, List.getElem_range]
  have htg : (((List.range (text.length - context)).map
      (fun i => (build_vocab text).indexOf (text.getD (i + context) ' '))).getD i 0)
      = (build_vocab text).indexOf (text.getD (i + context) ' ') := by
    rw [List.getD_eq_getElem _ _ (by simpa using hi), List.getElem_map, List.getElem_range]
  refine ⟨?_, ?_, ?_⟩
  · show encode (build_vocab text) _ = _
    rw [hin]
    apply encode_eq_map
    intro c hc
    exact mem_build_vocab.mpr (List.mem_of_mem_drop (List.mem_of_mem_take hc))
  · rw [hin]
    simp
    omega
  · show stoi (build_vocab text) _ = _
    rw [htg]
    have hlt2 : i + context < text.length := by omega
    rw [List.getD_eq_getElem _ _ hlt2]
    exact stoi_of_mem (mem_build_vocab.mpr (List.getElem_mem hlt2))

/-- Witness for C8 at text `"abcab"`, `context = 2`. -/
theorem dataset_windows_witness :
    (construct ['a','b','c','a','b'] 2 1 1 1 rngZero rngZero rngZero = .ok mCE) ∧
    (mCE.dataset.inputs.length = (['a','b','c','a','b'] : List Char).length - 2 ∧
     mCE.dataset.targets.length = (['a','b','c','a','b'] : List Char).length - 2 ∧
     ∀ i, i < (['a','b','c','a','b'] : List Char).length - 2 →
       encode mCE.vocab (((['a','b','c','a','b'] : List Char).drop i).take 2)
         = some (mCE.dataset.inputs.getD i []) ∧
       (mCE.dataset.inputs.getD i []).length = 2 ∧
       stoi mCE.vocab ((['a','b','c','a','b'] : List Char).getD (i + 2) ' ')
         = some (mCE.dataset.targets.getD i 0)) :=
  ⟨rfl, dataset_windows ['a','b','c','a','b'] 2 1 1 1 rngZero rngZero rngZero mCE rfl⟩

/-- Claim C10: a constructed model has at least one dataset pair, so the
divisions by the number of pairs in `loss` and in the training step's
averaging never divide by zero. -/
theorem dataset_nonempty_of_construct (text : List Char)
    (context embed_dim hidden_dim : Nat) (learning_rate : ℚ)
    (rndE rndW1 rndW2 : Nat → Nat → ℚ) (m : TinyLLM)
    (hok : construct text context embed_dim hidden_dim learning_rate rndE rndW1 rndW2 = .ok m) :
    0 < m.dataset.inputs.length ∧ ((m.dataset.inputs.length : ℚ) ≠ 0) := by
  obtain ⟨hlt, rfl⟩ := construct_ok_elim hok
  have hpos : 0 < text.length - context := by omega
  constructor
  · simpa using hpos
  · simp only [List.length_map, List.length_range]
    exact Nat.cast_ne_zero.mpr (by omega)

/-- Witness for C10 at the concrete constructed model. -/
theorem dataset_nonempty_of_construct_witness :
    (construct ['a','b','c','a','b'] 2 1 1 1 rngZero rngZero rngZero = .ok mCE) ∧
    (0 < mCE.dataset.inputs.length ∧ ((mCE.dataset.inputs.length : ℚ) ≠ 0)) :=
  ⟨rfl, dataset_nonempty_of_construct ['a','b','c','a','b'] 2 1 1 1
    rngZero rngZero rngZero mCE rfl⟩

/-! ## The embedding-gradient scatter: claim C1 -/

theorem scatterE_length (ed : Nat) (gxf : Vec) :
    ∀ (l : List (Nat × Nat)) (gE : Mat), (scatterE ed gxf l gE).length = gE.length
  | [], _ => rfl
  | (pos, w) :: rest, gE => by
    rw [scatterE, scatterE_length ed gxf rest]
    simp

theorem scatterE_mget (ed : Nat) (gxf : Vec) (l : List (Nat × Nat)) :
    ∀ (gE : Mat) (v d : Nat), v < gE.length → d < ed →
      mget (scatterE ed gxf l gE) v d
        = mget gE v d + ((l.filter (fun pv => pv.2 == v)).map
            (fun pv => vget gxf (pv.1 * ed + d))).sum := by
  induction l with
  | nil =>
    intro gE v d hv hd
    simp [scatterE]
  | cons pv rest ih =>
    obtain ⟨pos, w⟩ := pv
    intro gE v d hv hd
    rw [scatterE, ih _ v d (by simpa using hv) hd]
    by_cases hw : w = v
    · subst hw
      have h1 : mget (gE.set w ((List.range ed).map (fun d2 =>
          vget (gE.getD w []) d2 + vget gxf (pos * ed + d2)))) w d
          = mget gE w d + vget gxf (pos * ed + d) := by
        rw [mget_of_lt _ _ _ (by simpa using hv), List.getElem_set, if_pos rfl,
          vget_map_range _ _ _ hd]
        rfl
      rw [h1, List.filter_cons]
      simp only [beq_self_eq_true, if_true, List.map_cons, List.sum_cons]
      ring
    · have h1 : mget (gE.set w ((List.range ed).map (fun d2 =>
          vget (gE.getD w []) d2 + vget gxf (pos * ed + d2)))) v d
          = mget gE v d := by
        rw [mget_of_lt _ _ _ (by simpa using hv), List.getElem_set, if_neg hw,
          ← mget_of_lt _ _ _ hv]
      rw [h1, List.filter_cons]
      have hb : (((pos, w).2 == v)) = false := by simpa using hw
      rw [hb]
      simp

/-- Claim C1: the embedding gradient of `_backward` is built by
scatter-accumulation: entry `(v, d)` of `dE` equals the sum, over all context
positions `p` with `x_indices[p] = v`, of `grad_x_flat[p*embed_dim + d]` —
repeated occurrences of a vocabulary index accumulate, never overwrite. -/
theorem grad_E_scatter_sum (m : TinyLLM) (cache : Cache) (target_idx v d : Nat)
    (hv : v < m.vocab.length) (hd : d < m.embed_dim) :
    mget (backward m cache target_idx).gE v d
      = ((cache.x_indices.enum.filter (fun pv => pv.2 == v)).map
          (fun pv => vget (grad_x_flat m cache target_idx) (pv.1 * m.embed_dim + d))).sum := by
  show mget (grad_E m cache target_idx) v d = _
  unfold grad_E
  rw [scatterE_mget _ _ _ _ v d (by simpa [zeros] using hv) hd, mget_zeros]
  ring

/-- Witness for C1 at a concrete model, cache and target. -/
theorem grad_E_scatter_sum_witness :
    (0 < handModel.vocab.length ∧ 0 < handModel.embed_dim) ∧
    mget (backward handModel handCache 0).gE 0 0
      = ((handCache.x_indices.enum.filter (fun pv => pv.2 == 0)).map
          (fun pv => vget (grad_x_flat handModel handCache 0)
            (pv.1 * handModel.embed_dim + 0))).sum :=
  ⟨⟨by decide, by decide⟩, grad_E_scatter_sum handModel handCache 0 0 0 (by decide) (by decide)⟩

/-! ## Softmax and the forward pass: claim C7 -/

theorem length_softmax (ex : ℚ → ℚ) (vec : Vec) : (softmax ex vec).length = vec.length := by
  unfold softmax
  cases h : vec.max? with
  | none => simp [List.max?_eq_none_iff.mp h]
  | some mv => simp

theorem softmax_nonneg (ex : ℚ → ℚ) (hex : ∀ q, 0 < ex q) (vec : Vec) :
    ∀ p ∈ softmax ex vec, 0 ≤ p := by
  unfold softmax
  cases h : vec.max? with
  | none => simp
  | some mv =>
    intro p hp
    simp only [List.mem_map] at hp
    obtain ⟨e, he, rfl⟩ := hp
    obtain ⟨x, _, rfl⟩ := he
    apply div_nonneg (hex _).le
    apply List.sum_nonneg
    intro a ha
    obtain ⟨y, _, rfl⟩ := List.mem_map.mp ha
    exact (hex _).le

theorem map_div_sum (l : List ℚ) (c : ℚ) : (l.map (fun e => e / c)).sum = l.sum / c := by
  induction l with
  | nil => simp
  | cons a t ih => simp [ih, add_div]

theorem softmax_sum (ex : ℚ → ℚ) (hex : ∀ q, 0 < ex q) (vec : Vec) (hne : vec ≠ []) :
    (softmax ex vec).sum = 1 := by
  unfold softmax
  cases h : vec.max? with
  | none => exact absurd (List.max?_eq_none_iff.mp h) hne
  | some mv =>
    show ((vec.map (fun v => ex (v - mv))).map
      (fun e => e / (vec.map (fun v => ex (v - mv))).sum)).sum = 1
    rw [map_div_sum]
    apply div_self
    apply ne_of_gt
    apply List.sum_pos
    · intro a ha
      obtain ⟨y, _, rfl⟩ := List.mem_map.mp ha
      exact hex _
    · simpa using hne

theorem forward_probs_length (ex : ℚ → ℚ) (m : TinyLLM) (x_idx : List Nat) (hWF : WF m) :
    ((forward ex m x_idx).1).length = m.vocab.length := by
  obtain ⟨hv, hE, hW1, hb1, hW2, hb2, hds, hts⟩ := hWF
  show (softmax ex (add_vecs (matvec m.W2 (relu (add_vecs (matvec m.W1
    ((x_idx.map (fun idx => m.E.getD idx [])).flatten)) m.b1))) m.b2)).length = m.vocab.length
  rw [length_softmax]
  simp only [add_vecs, List.length_zipWith, matvec, List.length_map]
  rw [hW2.1, hb2]
  exact min_self _

/-- Claim C7: for a well-formed model and a valid context-index sequence, the
forward probability vector has length equal to the vocabulary size, every
entry nonnegative, and entries summing to exactly 1 (over the rational
embedding of the arithmetic), for any positive exponential function. -/
theorem forward_probs_valid (ex : ℚ → ℚ) (m : TinyLLM) (x_idx : List Nat)
    (hex : ∀ q, 0 < ex q) (hWF : WF m)
    (hlen : x_idx.length = m.context) (hvals : ∀ i ∈ x_idx, i < m.vocab.length) :
    ((forward ex m x_idx).1).length = m.vocab.length ∧
    (∀ p ∈ (forward ex m x_idx).1, 0 ≤ p) ∧
    ((forward ex m x_idx).1).sum = 1 := by
  have hplen := forward_probs_length ex m x_idx hWF
  refine ⟨hplen, ?_, ?_⟩
  · show ∀ p ∈ softmax ex _, 0 ≤ p
    exact softmax_nonneg ex hex _
  · show (softmax ex (add_vecs (matvec m.W2 (relu (add_vecs (matvec m.W1
      ((x_idx.map (fun idx => m.E.getD idx [])).flatten)) m.b1))) m.b2)).sum = 1
    apply softmax_sum ex hex
    intro h0
    have : ((forward ex m x_idx).1).length = 0 := by
      show (softmax ex _).length = 0
      rw [length_softmax, h0]
      rfl
    rw [hplen] at this
    have := hWF.1
    omega

/-- Witness for C7 at a concrete model and input. -/
theorem forward_probs_valid_witness :
    ((∀ q, 0 < exOne q) ∧ WF handModel ∧ ([0] : List Nat).length = handModel.context ∧
      (∀ i ∈ ([0] : List Nat), i < handModel.vocab.length)) ∧
    (((forward exOne handModel [0]).1).length = handModel.vocab.length ∧
     (∀ p ∈ (forward exOne handModel [0]).1, 0 ≤ p) ∧
     ((forward exOne handModel [0]).1).sum = 1) :=
  ⟨⟨fun _ => one_pos, by decide, by decide, by decide⟩,
   forward_probs_valid exOne handModel [0] (fun _ => one_pos) (by decide) (by decide) (by decide)⟩

/-! ## Greedy argmax and `predict_next`: claims C9 and C5 -/

theorem argmaxFrom_spec (v : Vec) :
    ∀ (k s b : Nat), b < s →
      (argmaxFrom v b (List.range' s k) = b ∨
        (s ≤ argmaxFrom v b (List.range' s k) ∧ argmaxFrom v b (List.range' s k) < s + k)) ∧
      vget v b ≤ vget v (argmaxFrom v b (List.range' s k)) ∧
      (∀ j, s ≤ j → j < s + k → vget v j ≤ vget v (argmaxFrom v b (List.range' s k))) ∧
      (b < argmaxFrom v b (List.range' s k) →
        vget v b < vget v (argmaxFrom v b (List.range' s k))) ∧
      (∀ j, s ≤ j → j < s + k → j < argmaxFrom v b (List.range' s k) →
        vget v j < vget v (argmaxFrom v b (List.range' s k))) := by
  intro k
  induction k with
  | zero =>
    intro s b hbs
    rw [List.range'_zero]
    have hred : argmaxFrom v b [] = b := rfl
    rw [hred]
    exact ⟨Or.inl rfl, le_refl _, fun j h1 h2 => by omega, fun h => by omega,
      fun j h1 h2 h3 => by omega⟩
  | succ k ihk =>
    intro s b hbs
    rw [List.range'_succ, argmaxFrom]
    by_cases hc : vget v b < vget v s
    · rw [if_pos hc]
      rcases ihk (s + 1) s (Nat.lt_succ_self s) with ⟨hpos, hble, hall, hstrict, hallstrict⟩
      refine ⟨?_, ?_, ?_, ?_, ?_⟩
      · rcases hpos with heq | ⟨h1, h2⟩
        · right
          rw [heq]
          omega
        · right
          omega
      · exact le_of_lt (lt_of_lt_of_le hc hble)
      · intro j hj1 hj2
        rcases eq_or_lt_of_le hj1 with rfl | hj
        · exact hble
        · exact hall j (by omega) (by omega)
      · intro _
        exact lt_of_lt_of_le hc hble
      · intro j hj1 hj2 hjr
        rcases eq_or_lt_of_le hj1 with rfl | hj
        · exact hstrict hjr
        · exact hallstrict j (by omega) (by omega) hjr
    · rw [if_neg hc]
      rcases ihk (s + 1) b (by omega) with ⟨hpos, hble, hall, hstrict, hallstrict⟩
      refine ⟨?_, hble, ?_, hstrict, ?_⟩
      · rcases hpos with heq | ⟨h1, h2⟩
        · exact Or.inl heq
        · right
          omega
      · intro j hj1 hj2
        rcases eq_or_lt_of_le hj1 with rfl | hj
        · exact le_trans (not_lt.mp hc) hble
        · exact hall j (by omega) (by omega)
      · intro j hj1 hj2 hjr
        rcases eq_or_lt_of_le hj1 with rfl | hj
        · rcases hpos with heq | ⟨h1, h2⟩
          · omega
          · exact lt_of_le_of_lt (not_lt.mp hc) (hstrict (by omega))
        · exact hallstrict j (by omega) (by omega) hjr

theorem argmaxIdx_spec (v : Vec) (hne : v ≠ []) :
    argmaxIdx v < v.length ∧
    (∀ j, j < v.length → vget v j ≤ vget v (argmaxIdx v)) ∧
    (∀ j, j < argmaxIdx v → vget v j < vget v (argmaxIdx v)) := by
  have hlen : 0 < v.length := List.length_pos.mpr hne
  unfold argmaxIdx
  rcases argmaxFrom_spec v (v.length - 1) 1 0 (by omega) with
    ⟨hpos, hble, hall, hstrict, hallstrict⟩
  refine ⟨?_, ?_, ?_⟩
  · rcases hpos with heq | ⟨h1, h2⟩
    · omega
    · omega
  · intro j hj
    rcases Nat.eq_zero_or_pos j with rfl | hjpos
    · exact hble
    · exact hall j hjpos (by omega)
  · intro j hjr
    rcases Nat.eq_zero_or_pos j with rfl | hjpos
    · exact hstrict hjr
    · rcases hpos with heq | ⟨h1, h2⟩
      · omega
      · exact hallstrict j hjpos (by omega) hjr

theorem predict_next_ok (ex : ℚ → ℚ) (m : TinyLLM) (context_text : List Char)
    (hWF : WF m) (hlen : context_text.length = m.context)
    (hmem : ∀ c ∈ context_text, c ∈ m.vocab) :
    ∃ idxs c, encode m.vocab context_text = some idxs ∧
      itos m.vocab (argmaxIdx ((forward ex m idxs).1)) = some c ∧
      predict_next ex m context_text = .ok (c, (forward ex m idxs).1) ∧
      c ∈ m.vocab := by
  have henc := encode_eq_map hmem
  have hplen := forward_probs_length ex m
    (context_text.map (fun c => m.vocab.indexOf c)) hWF
  have hV : 0 < m.vocab.length := hWF.1
  have hne : (forward ex m (context_text.map (fun c => m.vocab.indexOf c))).1 ≠ [] := by
    intro h0
    rw [h0] at hplen
    simp at hplen
    omega
  have hargmax : argmaxIdx ((forward ex m (context_text.map (fun c => m.vocab.indexOf c))).1)
      < m.vocab.length := by
    have := (argmaxIdx_spec _ hne).1
    rwa [hplen] at this
  have hitos : itos m.vocab
      (argmaxIdx ((forward ex m (context_text.map (fun c => m.vocab.indexOf c))).1))
      = some (m.vocab.get (Fin.mk (argmaxIdx ((forward ex m
          (context_text.map (fun c => m.vocab.indexOf c))).1)) hargmax)) :=
    List.getElem?_eq_getElem hargmax
  refine ⟨_, _, henc, hitos, ?_, List.getElem_mem hargmax⟩
  unfold predict_next
  rw [if_neg (by simp [hlen])]
  rw [henc]
  dsimp only
  rw [hitos]

/-- Claim C9: for a valid context string, `predict_next` returns the
vocabulary symbol at the first index attaining the maximum of the returned
probability vector: it is a maximiser and every smaller index has strictly
lower probability. -/
theorem predict_next_greedy_argmax (ex : ℚ → ℚ) (m : TinyLLM) (context_text : List Char)
    (hWF : WF m) (hlen : context_text.length = m.context)
    (hmem : ∀ c ∈ context_text, c ∈ m.vocab) :
    ∃ c probs a, predict_next ex m context_text = .ok (c, probs) ∧
      a < probs.length ∧ itos m.vocab a = some c ∧
      (∀ j, j < probs.length → vget probs j ≤ vget probs a) ∧
      (∀ j, j < a → vget probs j < vget probs a) := by
  obtain ⟨idxs, c, henc, hit, hpn, _⟩ := predict_next_ok ex m context_text hWF hlen hmem
  have hplen := forward_probs_length ex m idxs hWF
  have hne : (forward ex m idxs).1 ≠ [] := by
    intro h0
    rw [h0] at hplen
    have := hWF.1
    simp at hplen
    omega
  obtain ⟨hlt, hmax, hfirst⟩ := argmaxIdx_spec _ hne
  exact ⟨c, _, argmaxIdx ((forward ex m idxs).1), hpn, hlt, hit, hmax, hfirst⟩

/-- Witness for C9 at a concrete model and context string. -/
theorem predict_next_greedy_argmax_witness :
    (WF handModel ∧ (['a'] : List Char).length = handModel.context ∧
      (∀ c ∈ (['a'] : List Char), c ∈ handModel.vocab)) ∧
    (∃ c probs a, predict_next exOne handModel ['a'] = .ok (c, probs) ∧
      a < probs.length ∧ itos handModel.vocab a = some c ∧
      (∀ j, j < probs.length → vget probs j ≤ vget probs a) ∧
      (∀ j, j < a → vget probs j < vget probs a)) :=
  ⟨⟨by decide, by decide, by decide⟩,
   predict_next_greedy_argmax exOne handModel ['a'] (by decide) (by decide) (by decide)⟩

/-- Claim C5 (amended): `predict_next` fails with InvalidInput whenever the
context string has the wrong length; a correct-length context string succeeds
when all its characters are in the vocabulary, but fails with a key-lookup
error (Python `KeyError`), not InvalidInput, when it contains a character that
never occurred in the training text. -/
theorem predict_next_failure_modes (ex : ℚ → ℚ) (m : TinyLLM) (context_text : List Char)
    (hWF : WF m) :
    (context_text.length ≠ m.context →
      predict_next ex m context_text = .error .invalidInput) ∧
    (context_text.length = m.context → (∀ c ∈ context_text, c ∈ m.vocab) →
      ∃ c probs, predict_next ex m context_text = .ok (c, probs)) ∧
    (context_text.length = m.context → (∃ c ∈ context_text, c ∉ m.vocab) →
      predict_next ex m context_text = .error .keyError) := by
  refine ⟨?_, ?_, ?_⟩
  · intro h
    unfold predict_next
    rw [if_pos h]
  · intro hlen hmem
    obtain ⟨idxs, c, _, _, hpn, _⟩ := predict_next_ok ex m context_text hWF hlen hmem
    exact ⟨c, _, hpn⟩
  · intro hlen hbad
    unfold predict_next
    rw [if_neg (by simp [hlen]), encode_eq_none hbad]

/-- Counterexample to C5 as stated: on the constructed model, the
correct-length context string `"zz"` makes `predict_next` fail (with a
key-lookup error), so wrong length is not the only failure mode. -/
theorem predict_next_key_error_example :
    (['z','z'] : List Char).length = mCE.context ∧
    predict_next exOne mCE ['z','z'] = .error .keyError :=
  ⟨rfl, rfl⟩

/-- Witness for the amended C5 at a concrete model and context string. -/
theorem predict_next_failure_modes_witness :
    WF mCE ∧
    (((['a','b'] : List Char).length ≠ mCE.context →
       predict_next exOne mCE ['a','b'] = .error .invalidInput) ∧
     ((['a','b'] : List Char).length = mCE.context →
       (∀ c ∈ (['a','b'] : List Char), c ∈ mCE.vocab) →
       ∃ c probs, predict_next exOne mCE ['a','b'] = .ok (c, probs)) ∧
     ((['a','b'] : List Char).length = mCE.context →
       (∃ c ∈ (['a','b'] : List Char), c ∉ mCE.vocab) →
       predict_next exOne mCE ['a','b'] = .error .keyError)) :=
  ⟨by decide, predict_next_failure_modes exOne mCE ['a','b'] (by decide)⟩

/-! ## The sampler: claims C3 and C4 -/

theorem seedInit_length (m : TinyLLM) (seed : List Char) :
    (seedInit m seed).length = m.context := by
  unfold seedInit lastN padSeed
  by_cases h : seed.length < m.context
  · rw [if_pos h]
    simp
    omega
  · rw [if_neg h]
    simp
    omega

theorem sampleLoop_extends (ex : ℚ → ℚ) (m : TinyLLM) :
    ∀ (fuel : Nat) (gen out : List Char),
      sampleLoop ex m fuel gen = .ok out → ∃ rest, out = gen ++ rest := by
  intro fuel
  induction fuel with
  | zero =>
    intro gen out h
    rw [sampleLoop] at h
    obtain rfl : gen = out := by simpa using h
    exact ⟨[], by simp⟩
  | succ fuel ih =>
    intro gen out h
    rw [sampleLoop] at h
    cases hp : predict_next ex m (lastN m.context gen) with
    | error e =>
      rw [hp] at h
      simp at h
    | ok cp =>
      obtain ⟨c, probs⟩ := cp
      rw [hp] at h
      dsimp only at h
      by_cases hnl : c = '\n'
      · rw [if_pos hnl] at h
        obtain rfl : gen ++ [c] = out := by simpa using h
        exact ⟨[c], rfl⟩
      · rw [if_neg hnl] at h
        obtain ⟨rest, hrest⟩ := ih (gen ++ [c]) out h
        exact ⟨c :: rest, by simp [hrest]⟩

/-- Claim C3 (amended): a successful `sample` returns the initial generation
window — the final `context` characters of the (space-padded) seed — followed
only by newly generated characters.  For a seed longer than `context`, only its
final `context` characters are kept; the result does not extend the full seed. -/
theorem sample_extends_window (ex : ℚ → ℚ) (m : TinyLLM) (seed : List Char)
    (max_new : Nat) (out : List Char) (h : sample ex m seed max_new = .ok out) :
    ∃ rest, out = seedInit m seed ++ rest :=
  sampleLoop_extends ex m max_new (seedInit m seed) out h

/-- Counterexample to C3 as stated: on the constructed model with `context = 2`
and seed `"abc"` (longer than the context), the sampled string is `"bc"`, which
does not begin with the seed. -/
theorem sample_drops_long_seed_head :
    sample exOne mCE ['a','b','c'] 0 = .ok ['b','c'] ∧
    (['b','c'] : List Char).take (['a','b','c'] : List Char).length ≠ ['a','b','c'] :=
  ⟨rfl, by decide⟩

/-- Witness for the amended C3 at a concrete model and seed. -/
theorem sample_extends_window_witness :
    sample exOne mCE ['a','b','c'] 0 = .ok ['b','c'] ∧
    ∃ rest, (['b','c'] : List Char) = seedInit mCE ['a','b','c'] ++ rest :=
  ⟨rfl, sample_extends_window exOne mCE ['a','b','c'] 0 ['b','c'] rfl⟩

theorem sampleLoop_total (ex : ℚ → ℚ) (m : TinyLLM) (hWF : WF m) :
    ∀ (fuel : Nat) (gen : List Char), m.context ≤ gen.length →
      (∀ c ∈ gen, c ∈ m.vocab) → ∃ out, sampleLoop ex m fuel gen = .ok out := by
  intro fuel
  induction fuel with
  | zero =>
    intro gen _ _
    exact ⟨gen, rfl⟩
  | succ fuel ih =>
    intro gen hlen hmem
    have hwin_len : (lastN m.context gen).length = m.context := by
      unfold lastN
      simp
      omega
    have hwin_mem : ∀ c ∈ lastN m.context gen, c ∈ m.vocab := fun c hc =>
      hmem c (List.mem_of_mem_drop hc)
    obtain ⟨idxs, c, henc, hit, hpn, hcv⟩ := predict_next_ok ex m _ hWF hwin_len hwin_mem
    rw [sampleLoop, hpn]
    dsimp only
    by_cases hnl : c = '\n'
    · rw [if_pos hnl]
      exact ⟨gen ++ [c], rfl⟩
    · rw [if_neg hnl]
      apply ih (gen ++ [c])
      · simp
        omega
      · intro d hd
        rcases List.mem_append.mp hd with hdg | hdc
        · exact hmem d hdg
        · rw [List.mem_singleton.mp hdc]
          exact hcv

/-- Claim C4 (amended): `sample` pads short seeds with spaces to exactly
`context` characters and then succeeds — provided every character of the
initial window (the padded seed's final `context` characters) belongs to the
vocabulary; a seed introducing an out-of-vocabulary character (including the
padding space, when space never occurred in the training text) instead fails
with a key-lookup error. -/
theorem sample_total (ex : ℚ → ℚ) (m : TinyLLM) (seed : List Char) (max_new : Nat)
    (hWF : WF m) (hmem : ∀ c ∈ seedInit m seed, c ∈ m.vocab) :
    ∃ out, sample ex m seed max_new = .ok out := by
  apply sampleLoop_total ex m hWF max_new
  · rw [seedInit_length]
  · exact hmem

/-- Counterexample to C4 as stated: on the constructed model (whose vocabulary
is `{'a','b','c'}`), the well-formed string seed `"z"` makes `sample` fail with
a key-lookup error (the padding space and `'z'` are out of vocabulary). -/
theorem sample_key_error_example :
    sample exOne mCE ['z'] 1 = .error .keyError := rfl

/-- Witness for the amended C4 at a concrete model and seed. -/
theorem sample_total_witness :
    (WF mCE ∧ (∀ c ∈ seedInit mCE ['a','b'], c ∈ mCE.vocab)) ∧
    ∃ out, sample exOne mCE ['a','b'] 1 = .ok out :=
  ⟨⟨by decide, by decide⟩, sample_total exOne mCE ['a','b'] 1 (by decide) (by decide)⟩

/-! ## Tensor-operation lemmas for the training step -/

theorem vget_add_vecs (a b : Vec) (i : Nat) (ha : i < a.length) (hb : i < b.length) :
    vget (add_vecs a b) i = vget a i + vget b i := by
  have hi : i < (add_vecs a b).length := by
    simp only [add_vecs, List.length_zipWith]
    omega
  rw [vget_of_lt _ _ hi]
  show (List.zipWith (fun a b => a + b) a b)[i] = _
  rw [List.getElem_zipWith, vget_of_lt _ _ ha, vget_of_lt _ _ hb]

theorem MShape_addMat (a b : Mat) (r c : Nat) (ha : MShape a r c) (hb : MShape b r c) :
    MShape (addMat a b) r c := by
  constructor
  · simp [addMat, ha.1, hb.1]
  · intro row hrow
    unfold addMat at hrow
    rw [List.mem_iff_getElem] at hrow
    obtain ⟨i, hi, rfl⟩ := hrow
    rw [List.length_zipWith] at hi
    have h1 : i < a.length := by omega
    have h2 : i < b.length := by omega
    rw [List.getElem_zipWith, List.length_zipWith,
      ha.2 _ (List.getElem_mem h1), hb.2 _ (List.getElem_mem h2), min_self]

theorem mget_addMat (a b : Mat) (r c i j : Nat) (ha : MShape a r c) (hb : MShape b r c)
    (hi : i < r) (hj : j < c) : mget (addMat a b) i j = mget a i j + mget b i j := by
  have hia : i < a.length := by omega
  have hib : i < b.length := by omega
  have hiz : i < (addMat a b).length := by
    simp only [addMat, List.length_zipWith]
    omega
  rw [mget_of_lt _ _ _ hiz, mget_of_lt _ _ _ hia, mget_of_lt _ _ _ hib]
  show vget ((List.zipWith (fun ra rb => List.zipWith (fun x y => x + y) ra rb) a b)[i]) j = _
  rw [List.getElem_zipWith]
  exact vget_add_vecs a[i] b[i] j (by rw [ha.2 _ (List.getElem_mem hia)]; omega)
    (by rw [hb.2 _ (List.getElem_mem hib)]; omega)

theorem MShape_scaleMat (q : ℚ) (M : Mat) (r c : Nat) (h : MShape M r c) :
    MShape (scaleMat q M) r c := by
  constructor
  · simp [scaleMat, h.1]
  · intro row hrow
    obtain ⟨row0, hr0, rfl⟩ := List.mem_map.mp hrow
    simp [h.2 _ hr0]

theorem mget_scaleMat (q : ℚ) (M : Mat) (r c i j : Nat) (h : MShape M r c)
    (hi : i < r) (hj : j < c) : mget (scaleMat q M) i j = mget M i j * q := by
  have him : i < M.length := by omega
  have his : i < (scaleMat q M).length := by
    simp only [scaleMat, List.length_map]
    omega
  rw [mget_of_lt _ _ _ his, mget_of_lt _ _ _ him]
  show vget ((M.map (fun row => row.map (fun x => x * q)))[i]) j = _
  rw [List.getElem_map]
  have hrow : (M[i]).length = c := h.2 _ (List.getElem_mem him)
  have hj2 : j < (M[i]).length := by omega
  have hj3 : j < ((M[i]).map (fun x => x * q)).length := by simpa using hj2
  rw [vget_of_lt _ _ hj3, List.getElem_map, vget_of_lt _ _ hj2]

theorem vget_scaleVec (q : ℚ) (v : Vec) (i : Nat) (hi : i < v.length) :
    vget (scaleVec q v) i = vget v i * q := by
  have hi2 : i < (scaleVec q v).length := by simpa [scaleVec] using hi
  rw [vget_of_lt _ _ hi2]
  show (v.map (fun x => x * q))[i] = _
  rw [List.getElem_map, vget_of_lt _ _ hi]

theorem mget_subMat (lr : ℚ) (p g : Mat) (r c i j : Nat) (hp : MShape p r c)
    (hg : MShape g r c) (hi : i < r) (hj : j < c) :
    mget (subMat lr p g) i j = mget p i j - lr * mget g i j := by
  have hip : i < p.length := by omega
  have hig : i < g.length := by omega
  have hiz : i < (subMat lr p g).length := by
    simp only [subMat, List.length_zipWith]
    omega
  rw [mget_of_lt _ _ _ hiz, mget_of_lt _ _ _ hip, mget_of_lt _ _ _ hig]
  show vget ((List.zipWith (fun rp rg => List.zipWith (fun x y => x - lr * y) rp rg) p g)[i]) j = _
  rw [List.getElem_zipWith]
  have hjp : j < (p[i]).length := by rw [hp.2 _ (List.getElem_mem hip)]; omega
  have hjg : j < (g[i]).length := by rw [hg.2 _ (List.getElem_mem hig)]; omega
  have hjz : j < (List.zipWith (fun x y => x - lr * y) p[i] g[i]).length := by
    rw [List.length_zipWith]
    omega
  rw [vget_of_lt _ _ hjz, List.getElem_zipWith, vget_of_lt _ _ hjp, vget_of_lt _ _ hjg]

theorem vget_subVec (lr : ℚ) (p g : Vec) (n i : Nat) (hp : p.length = n) (hg : g.length = n)
    (hi : i < n) : vget (subVec lr p g) i = vget p i - lr * vget g i := by
  have hip : i < p.length := by omega
  have hig : i < g.length := by omega
  have hiz : i < (subVec lr p g).length := by
    simp only [subVec, List.length_zipWith]
    omega
  rw [vget_of_lt _ _ hiz]
  show (List.zipWith (fun x y => x - lr * y) p g)[i] = _
  rw [List.getElem_zipWith, vget_of_lt _ _ hip, vget_of_lt _ _ hig]

theorem vget_replicate_zero (n i : Nat) : vget (List.replicate n (0 : ℚ)) i = 0 := by
  by_cases hi : i < n
  · rw [vget_of_lt _ _ (by simpa using hi), List.getElem_replicate]
  · exact vget_of_ge _ _ (by simpa using not_lt.mp hi)

/-! ## Gradient accumulation folds -/

theorem foldl_addMat_spec {α : Type} (f : α → Mat) (r c : Nat) :
    ∀ (l : List α), (∀ s ∈ l, MShape (f s) r c) → ∀ (M0 : Mat), MShape M0 r c →
      MShape (l.foldl (fun acc s => addMat acc (f s)) M0) r c ∧
      (∀ i j, i < r → j < c →
        mget (l.foldl (fun acc s => addMat acc (f s)) M0) i j
          = mget M0 i j + ((l.map (fun s => mget (f s) i j)).sum)) := by
  intro l
  induction l with
  | nil =>
    intro _ M0 h0
    exact ⟨h0, fun i j hi hj => by simp⟩
  | cons s rest ih =>
    intro hl M0 h0
    have hs : MShape (f s) r c := hl s (List.mem_cons_self s rest)
    have h0' : MShape (addMat M0 (f s)) r c := MShape_addMat _ _ _ _ h0 hs
    obtain ⟨hsh, hmg⟩ := ih (fun t ht => hl t (List.mem_cons_of_mem _ ht)) (addMat M0 (f s)) h0'
    refine ⟨hsh, ?_⟩
    intro i j hi hj
    show mget (rest.foldl _ (addMat M0 (f s))) i j = _
    rw [hmg i j hi hj, mget_addMat _ _ _ _ _ _ h0 hs hi hj]
    simp only [List.map_cons, List.sum_cons]
    ring

theorem foldl_add_vecs_spec {α : Type} (f : α → Vec) (n : Nat) :
    ∀ (l : List α), (∀ s ∈ l, (f s).length = n) → ∀ (v0 : Vec), v0.length = n →
      (l.foldl (fun acc s => add_vecs acc (f s)) v0).length = n ∧
      (∀ i, i < n →
        vget (l.foldl (fun acc s => add_vecs acc (f s)) v0) i
          = vget v0 i + ((l.map (fun s => vget (f s) i)).sum)) := by
  intro l
  induction l with
  | nil =>
    intro _ v0 h0
    exact ⟨h0, fun i hi => by simp⟩
  | cons s rest ih =>
    intro hl v0 h0
    have hs : (f s).length = n := hl s (List.mem_cons_self s rest)
    have h0' : (add_vecs v0 (f s)).length = n := by
      simp only [add_vecs, List.length_zipWith]
      omega
    obtain ⟨hsh, hvg⟩ := ih (fun t ht => hl t (List.mem_cons_of_mem _ ht)) (add_vecs v0 (f s)) h0'
    refine ⟨hsh, ?_⟩
    intro i hi
    show vget (rest.foldl _ (add_vecs v0 (f s))) i = _
    rw [hvg i hi, vget_add_vecs v0 (f s) i (by omega) (by omega)]
    simp only [List.map_cons, List.sum_cons]
    ring

theorem foldl_addGrads_gE {α : Type} (f : α → Grads) :
    ∀ (l : List α) (z : Grads),
      (l.foldl (fun acc s => addGrads acc (f s)) z).gE
        = l.foldl (fun acc s => addMat acc (f s).gE) z.gE
  | [], _ => rfl
  | s :: rest, z => by
    show (rest.foldl _ (addGrads z (f s))).gE = _
    rw [foldl_addGrads_gE f rest (addGrads z (f s))]
    rfl

theorem foldl_addGrads_gW1 {α : Type} (f : α → Grads) :
    ∀ (l : List α) (z : Grads),
      (l.foldl (fun acc s => addGrads acc (f s)) z).gW1
        = l.foldl (fun acc s => addMat acc (f s).gW1) z.gW1
  | [], _ => rfl
  | s :: rest, z => by
    show (rest.foldl _ (addGrads z (f s))).gW1 = _
    rw [foldl_addGrads_gW1 f rest (addGrads z (f s))]
    rfl

theorem foldl_addGrads_gb1 {α : Type} (f : α → Grads) :
    ∀ (l : List α) (z : Grads),
      (l.foldl (fun acc s => addGrads acc (f s)) z).gb1
        = l.foldl (fun acc s => add_vecs acc (f s).gb1) z.gb1
  | [], _ => rfl
  | s :: rest, z => by
    show (rest.foldl _ (addGrads z (f s))).gb1 = _
    rw [foldl_addGrads_gb1 f rest (addGrads z (f s))]
    rfl

theorem foldl_addGrads_gW2 {α : Type} (f : α → Grads) :
    ∀ (l : List α) (z : Grads),
      (l.foldl (fun acc s => addGrads acc (f s)) z).gW2
        = l.foldl (fun acc s => addMat acc (f s).gW2) z.gW2
  | [], _ => rfl
  | s :: rest, z => by
    show (rest.foldl _ (addGrads z (f s))).gW2 = _
    rw [foldl_addGrads_gW2 f rest (addGrads z (f s))]
    rfl

theorem foldl_addGrads_gb2 {α : Type} (f : α → Grads) :
    ∀ (l : List α) (z : Grads),
      (l.foldl (fun acc s => addGrads acc (f s)) z).gb2
        = l.foldl (fun acc s => add_vecs acc (f s).gb2) z.gb2
  | [], _ => rfl
  | s :: rest, z => by
    show (rest.foldl _ (addGrads z (f s))).gb2 = _
    rw [foldl_addGrads_gb2 f rest (addGrads z (f s))]
    rfl

/-! ## Shapes of the per-sample gradient tensors -/

theorem MShape_scatterE (ed : Nat) (gxf : Vec) :
    ∀ (l : List (Nat × Nat)) (g : Mat) (r : Nat), MShape g r ed →
      MShape (scatterE ed gxf l g) r ed
  | [], _, _, h => h
  | (pos, w) :: rest, g, r, h => by
    rw [scatterE]
    apply MShape_scatterE ed gxf rest
    constructor
    · simp [h.1]
    · intro row hrow
      rcases List.mem_or_eq_of_mem_set hrow with hmem | heq
      · exact h.2 _ hmem
      · rw [heq]
        simp

theorem MShape_grad_E (m : TinyLLM) (cache : Cache) (t : Nat) :
    MShape (grad_E m cache t) m.vocab.length m.embed_dim := by
  unfold grad_E
  exact MShape_scatterE _ _ _ _ _ (MShape_zeros _ _)

theorem MShape_grad_W1 (m : TinyLLM) (cache : Cache) (t : Nat) :
    MShape (grad_W1 m cache t) m.hidden_dim (m.context * m.embed_dim) := by
  constructor
  · simp [grad_W1]
  · intro row h
    obtain ⟨i, _, rfl⟩ := List.mem_map.mp h
    simp

theorem MShape_grad_W2 (m : TinyLLM) (cache : Cache) (t : Nat) :
    MShape (grad_W2 m cache t) m.vocab.length m.hidden_dim := by
  constructor
  · simp [grad_W2]
  · intro row h
    obtain ⟨i, _, rfl⟩ := List.mem_map.mp h
    simp

theorem length_grad_hidden (m : TinyLLM) (cache : Cache) (t : Nat) :
    (grad_hidden m cache t).length = m.hidden_dim := by
  simp [grad_hidden]

theorem length_grad_logits (cache : Cache) (t : Nat) :
    (grad_logits cache t).length = cache.probs.length := by
  simp [grad_logits]

theorem length_backward_gb2 (ex : ℚ → ℚ) (m : TinyLLM) (x : List Nat) (t : Nat)
    (hWF : WF m) : ((backward m (forward ex m x).2 t).gb2).length = m.vocab.length := by
  show (grad_logits (forward ex m x).2 t).length = _
  rw [length_grad_logits]
  show ((forward ex m x).1).length = _
  exact forward_probs_length ex m x hWF

/-! ## The training step: claim C2 -/

theorem epochStep_E (ex : ℚ → ℚ) (m : TinyLLM) :
    (epochStep ex m).E = subMat m.learning_rate m.E
      (scaleMat (1 / (m.dataset.inputs.length : ℚ))
        ((samples m).foldl
          (fun acc s => addMat acc (backward m (forward ex m s.1).2 s.2).gE)
          (zeros m.vocab.length m.embed_dim))) := by
  show subMat m.learning_rate m.E
    (scaleMat (1 / (m.dataset.inputs.length : ℚ))
      (((samples m).foldl
        (fun acc s => addGrads acc (backward m (forward ex m s.1).2 s.2)) (zeroGrads m)).gE)) = _
  rw [foldl_addGrads_gE]
  rfl

theorem epochStep_W1 (ex : ℚ → ℚ) (m : TinyLLM) :
    (epochStep ex m).W1 = subMat m.learning_rate m.W1
      (scaleMat (1 / (m.dataset.inputs.length : ℚ))
        ((samples m).foldl
          (fun acc s => addMat acc (backward m (forward ex m s.1).2 s.2).gW1)
          (zeros m.hidden_dim (m.context * m.embed_dim)))) := by
  show subMat m.learning_rate m.W1
    (scaleMat (1 / (m.dataset.inputs.length : ℚ))
      (((samples m).foldl
        (fun acc s => addGrads acc (backward m (forward ex m s.1).2 s.2)) (zeroGrads m)).gW1)) = _
  rw [foldl_addGrads_gW1]
  rfl

theorem epochStep_b1 (ex : ℚ → ℚ) (m : TinyLLM) :
    (epochStep ex m).b1 = subVec m.learning_rate m.b1
      (scaleVec (1 / (m.dataset.inputs.length : ℚ))
        ((samples m).foldl
          (fun acc s => add_vecs acc (backward m (forward ex m s.1).2 s.2).gb1)
          (List.replicate m.hidden_dim (0 : ℚ)))) := by
  show subVec m.learning_rate m.b1
    (scaleVec (1 / (m.dataset.inputs.length : ℚ))
      (((samples m).foldl
        (fun acc s => addGrads acc (backward m (forward ex m s.1).2 s.2)) (zeroGrads m)).gb1)) = _
  rw [foldl_addGrads_gb1]
  rfl

theorem epochStep_W2 (ex : ℚ → ℚ) (m : TinyLLM) :
    (epochStep ex m).W2 = subMat m.learning_rate m.W2
      (scaleMat (1 / (m.dataset.inputs.length : ℚ))
        ((samples m).foldl
          (fun acc s => addMat acc (backward m (forward ex m s.1).2 s.2).gW2)
          (zeros m.vocab.length m.hidden_dim))) := by
  show subMat m.learning_rate m.W2
    (scaleMat (1 / (m.dataset.inputs.length : ℚ))
      (((samples m).foldl
        (fun acc s => addGrads acc (backward m (forward ex m s.1).2 s.2)) (zeroGrads m)).gW2)) = _
  rw [foldl_addGrads_gW2]
  rfl

theorem epochStep_b2 (ex : ℚ → ℚ) (m : TinyLLM) :
    (epochStep ex m).b2 = subVec m.learning_rate m.b2
      (scaleVec (1 / (m.dataset.inputs.length : ℚ))
        ((samples m).foldl
          (fun acc s => add_vecs acc (backward m (forward ex m s.1).2 s.2).gb2)
          (List.replicate m.vocab.length (0 : ℚ)))) := by
  show subVec m.learning_rate m.b2
    (scaleVec (1 / (m.dataset.inputs.length : ℚ))
      (((samples m).foldl
        (fun acc s => addGrads acc (backward m (forward ex m s.1).2 s.2)) (zeroGrads m)).gb2)) = _
  rw [foldl_addGrads_gb2]
  rfl

theorem train_eq_iterate (ex : ℚ → ℚ) :
    ∀ (epochs : Nat) (m : TinyLLM), train ex m epochs = (epochStep ex)^[epochs] m
  | 0, _ => rfl
  | Nat.succ k, m => by
    show train ex (epochStep ex m) k = _
    rw [train_eq_iterate ex k (epochStep ex m), Function.iterate_succ_apply]

theorem length_scaleVec (q : ℚ) (v : Vec) : (scaleVec q v).length = v.length := by
  simp [scaleVec]

/-- Claim C2: training runs exactly `epochs` sequential epochs with no early
stopping, and each epoch is one full-batch gradient-descent step: for each of
the five parameter tensors, the per-sample gradients over the whole dataset at
the pre-update parameters are summed, divided by the number of dataset pairs,
and every parameter element moves by `-learning_rate` times that average. -/
theorem train_full_batch_descent (ex : ℚ → ℚ) (m : TinyLLM) (epochs : Nat)
    (hWF : WF m) (hn : 0 < m.dataset.inputs.length) (hepochs : 0 < epochs) :
    train ex m epochs = (epochStep ex)^[epochs] m ∧
    (∀ i j, i < m.vocab.length → j < m.embed_dim →
      mget (epochStep ex m).E i j = mget m.E i j - m.learning_rate *
        (((samples m).map
            (fun s => mget (backward m (forward ex m s.1).2 s.2).gE i j)).sum
          / (m.dataset.inputs.length : ℚ))) ∧
    (∀ i j, i < m.hidden_dim → j < m.context * m.embed_dim →
      mget (epochStep ex m).W1 i j = mget m.W1 i j - m.learning_rate *
        (((samples m).map
            (fun s => mget (backward m (forward ex m s.1).2 s.2).gW1 i j)).sum
          / (m.dataset.inputs.length : ℚ))) ∧
    (∀ i, i < m.hidden_dim →
      vget (epochStep ex m).b1 i = vget m.b1 i - m.learning_rate *
        (((samples m).map
            (fun s => vget (backward m (forward ex m s.1).2 s.2).gb1 i)).sum
          / (m.dataset.inputs.length : ℚ))) ∧
    (∀ i j, i < m.vocab.length → j < m.hidden_dim →
      mget (epochStep ex m).W2 i j = mget m.W2 i j - m.learning_rate *
        (((samples m).map
            (fun s => mget (backward m (forward ex m s.1).2 s.2).gW2 i j)).sum
          / (m.dataset.inputs.length : ℚ))) ∧
    (∀ i, i < m.vocab.length →
      vget (epochStep ex m).b2 i = vget m.b2 i - m.learning_rate *
        (((samples m).map
            (fun s => vget (backward m (forward ex m s.1).2 s.2).gb2 i)).sum
          / (m.dataset.inputs.length : ℚ))) := by
  have hWFc := hWF
  obtain ⟨hV, hEsh, hW1sh, hb1len, hW2sh, hb2len, hins, htgs⟩ := hWFc
  refine ⟨train_eq_iterate ex epochs m, ?_, ?_, ?_, ?_, ?_⟩
  · intro i j hi hj
    have hshape : ∀ s ∈ samples m,
        MShape ((backward m (forward ex m s.1).2 s.2).gE) m.vocab.length m.embed_dim :=
      fun s _ => MShape_grad_E m _ _
    obtain ⟨hfsh, hfmg⟩ := foldl_addMat_spec
      (fun s : List Nat × Nat => (backward m (forward ex m s.1).2 s.2).gE)
      m.vocab.length m.embed_dim (samples m) hshape
      (zeros m.vocab.length m.embed_dim) (MShape_zeros m.vocab.length m.embed_dim)
    rw [epochStep_E,
      mget_subMat m.learning_rate m.E _ m.vocab.length m.embed_dim i j hEsh
        (MShape_scaleMat _ _ m.vocab.length m.embed_dim hfsh) hi hj,
      mget_scaleMat _ _ m.vocab.length m.embed_dim i j hfsh hi hj,
      hfmg i j hi hj, mget_zeros, zero_add, mul_one_div]
  · intro i j hi hj
    have hshape : ∀ s ∈ samples m,
        MShape ((backward m (forward ex m s.1).2 s.2).gW1) m.hidden_dim
          (m.context * m.embed_dim) :=
      fun s _ => MShape_grad_W1 m _ _
    obtain ⟨hfsh, hfmg⟩ := foldl_addMat_spec
      (fun s : List Nat × Nat => (backward m (forward ex m s.1).2 s.2).gW1)
      m.hidden_dim (m.context * m.embed_dim) (samples m) hshape
      (zeros m.hidden_dim (m.context * m.embed_dim))
      (MShape_zeros m.hidden_dim (m.context * m.embed_dim))
    rw [epochStep_W1,
      mget_subMat m.learning_rate m.W1 _ m.hidden_dim (m.context * m.embed_dim) i j hW1sh
        (MShape_scaleMat _ _ m.hidden_dim (m.context * m.embed_dim) hfsh) hi hj,
      mget_scaleMat _ _ m.hidden_dim (m.context * m.embed_dim) i j hfsh hi hj,
      hfmg i j hi hj, mget_zeros, zero_add, mul_one_div]
  · intro i hi
    have hlen1 : ∀ s ∈ samples m,
        ((backward m (forward ex m s.1).2 s.2).gb1).length = m.hidden_dim :=
      fun s _ => length_grad_hidden m _ _
    obtain ⟨hfl, hfv⟩ := foldl_add_vecs_spec
      (fun s : List Nat × Nat => (backward m (forward ex m s.1).2 s.2).gb1)
      m.hidden_dim (samples m) hlen1 (List.replicate m.hidden_dim 0) (by simp)
    rw [epochStep_b1,
      vget_subVec m.learning_rate m.b1 _ m.hidden_dim i hb1len
        (by rw [length_scaleVec]; exact hfl) hi,
      vget_scaleVec _ _ i (by rw [hfl]; exact hi), hfv i hi, vget_replicate_zero,
      zero_add, mul_one_div]
  · intro i j hi hj
    have hshape : ∀ s ∈ samples m,
        MShape ((backward m (forward ex m s.1).2 s.2).gW2) m.vocab.length m.hidden_dim :=
      fun s _ => MShape_grad_W2 m _ _
    obtain ⟨hfsh, hfmg⟩ := foldl_addMat_spec
      (fun s : List Nat × Nat => (backward m (forward ex m s.1).2 s.2).gW2)
      m.vocab.length m.hidden_dim (samples m) hshape
      (zeros m.vocab.length m.hidden_dim) (MShape_zeros m.vocab.length m.hidden_dim)
    rw [epochStep_W2,
      mget_subMat m.learning_rate m.W2 _ m.vocab.length m.hidden_dim i j hW2sh
        (MShape_scaleMat _ _ m.vocab.length m.hidden_dim hfsh) hi hj,
      mget_scaleMat _ _ m.vocab.length m.hidden_dim i j hfsh hi hj,
      hfmg i j hi hj, mget_zeros, zero_add, mul_one_div]
  · intro i hi
    have hlen2 : ∀ s ∈ samples m,
        ((backward m (forward ex m s.1).2 s.2).gb2).length = m.vocab.length :=
      fun s _ => length_backward_gb2 ex m s.1 s.2 hWF
    obtain ⟨hfl, hfv⟩ := foldl_add_vecs_spec
      (fun s : List Nat × Nat => (backward m (forward ex m s.1).2 s.2).gb2)
      m.vocab.length (samples m) hlen2 (List.replicate m.vocab.length 0) (by simp)
    rw [epochStep_b2,
      vget_subVec m.learning_rate m.b2 _ m.vocab.length i hb2len
        (by rw [length_scaleVec]; exact hfl) hi,
      vget_scaleVec _ _ i (by rw [hfl]; exact hi), hfv i hi, vget_replicate_zero,
      zero_add, mul_one_div]

/-- Witness for C2 at a concrete model and one epoch. -/
theorem train_full_batch_descent_witness :
    (WF handModel ∧ 0 < handModel.dataset.inputs.length ∧ 0 < 1) ∧
    (train exOne handModel 1 = (epochStep exOne)^[1] handModel ∧
     (∀ i j, i < handModel.vocab.length → j < handModel.embed_dim →
       mget (epochStep exOne handModel).E i j = mget handModel.E i j -
         handModel.learning_rate *
         (((samples handModel).map
             (fun s => mget (backward handModel (forward exOne handModel s.1).2 s.2).gE i j)).sum
           / (handModel.dataset.inputs.length : ℚ))) ∧
     (∀ i j, i < handModel.hidden_dim → j < handModel.context * handModel.embed_dim →
       mget (epochStep exOne handModel).W1 i j = mget handModel.W1 i j -
         handModel.learning_rate *
         (((samples handModel).map
             (fun s => mget (backward handModel (forward exOne handModel s.1).2 s.2).gW1 i j)).sum
           / (handModel.dataset.inputs.length : ℚ))) ∧
     (∀ i, i < handModel.hidden_dim →
       vget (epochStep exOne handModel).b1 i = vget handModel.b1 i -
         handModel.learning_rate *
         (((samples handModel).map
             (fun s => vget (backward handModel (forward exOne handModel s.1).2 s.2).gb1 i)).sum
           / (handModel.dataset.inputs.length : ℚ))) ∧
     (∀ i j, i < handModel.vocab.length → j < handModel.hidden_dim →
       mget (epochStep exOne handModel).W2 i j = mget handModel.W2 i j -
         handModel.learning_rate *
         (((samples handModel).map
             (fun s => mget (backward handModel (forward exOne handModel s.1).2 s.2).gW2 i j)).sum
           / (handModel.dataset.inputs.length : ℚ))) ∧
     (∀ i, i < handModel.vocab.length →
       vget (epochStep exOne handModel).b2 i = vget handModel.b2 i -
         handModel.learning_rate *
         (((samples handModel).map
             (fun s => vget (backward handModel (forward exOne handModel s.1).2 s.2).gb2 i)).sum
           / (handModel.dataset.inputs.length : ℚ)))) :=
  ⟨⟨by decide, by decide, by decide⟩,
   train_full_batch_descent exOne handModel 1 (by decide) (by decide) (by decide)⟩

end MiniLLM
